import Mathlib

/-
  Verification development for the iterative tool-calling orchestration loop
  of the gesagent repository (src/app/src/lib/ollama.ts).

  The embedding works over `List Char` ("Str").  JavaScript strings become
  char lists; the `[TOOL]`-directive regex of `parseToolCall` is compiled by
  hand into primitive string operations (the compilation is deterministic:
  the regex's character classes are disjoint, so greedy matching is the only
  possible decomposition); `JSON.parse` / `JSON.stringify` are modelled by a
  small fuel-based JSON parser and printer; the streaming generator
  `ollamaChat` becomes a function from a tool executor and a model-stream
  oracle to the finite record of everything the generator did (yields,
  final conversation history, number of model invocations, error).

  Modelling notes:
  - Provider wire framing (ollama.ts lines 90-125: the newline-delimited
    JSON / SSE "data:" decode that extracts content deltas from raw bytes)
    is abstracted: one element of `FetchStep.ok`'s chunk list is the total
    decoded content of one `reader.read()` cycle, i.e. exactly what those
    lines append to `textBuf` and `fullResponse` before the directive scan
    runs.  All claims under verification are about the scan and the loop,
    which sit strictly downstream of that decode.
  - JavaScript `\s` / `String.trim` whitespace is modelled by its ASCII
    subset; model output lines never contain the exotic Unicode spaces.
  - JSON numbers are kept as their source literals (no floating point);
    no claim inspects a numeric value.
-/

namespace Gesagent

/-- Character strings of the TypeScript source, as lists of characters. -/
abbrev Str := List Char

/-- ASCII model of the JavaScript regex class `\s` (also used by
`String.prototype.trim`): space, tab, newline, carriage return, vertical
tab, form feed. -/
def wsChar (c : Char) : Bool :=
  c = ' ' || c = '\t' || c = '\n' || c = '\r' || c = '\x0b' || c = '\x0c'

/-- The JavaScript regex class `\w`: ASCII letters, digits and underscore
(written via character codes: 97-122, 65-90, 48-57, 95). -/
def wChar (c : Char) : Bool :=
  let n := c.toNat
  (97 ≤ n && n ≤ 122) || (65 ≤ n && n ≤ 90) || (48 ≤ n && n ≤ 57) || n == 95

/-- The JavaScript regex class `.` (no `s` flag): any character except the
line terminators; for the line-based inputs at hand, except newline and
carriage return. -/
def dotChar (c : Char) : Bool :=
  !(c = '\n' || c = '\r')

/-- Decimal digit (character codes 48-57). -/
def digitChar (c : Char) : Bool :=
  48 ≤ c.toNat && c.toNat ≤ 57

/-- Whitespace accepted by `JSON.parse` between tokens. -/
def jsonWsChar (c : Char) : Bool :=
  c = ' ' || c = '\t' || c = '\n' || c = '\r'

/-- JSON values as produced by `JSON.parse`.  Object fields keep insertion
order, as JavaScript objects do; numbers keep their literal text. -/
inductive Json where
  | null : Json
  | bool (b : Bool) : Json
  | num (lit : Str) : Json
  | str (s : Str) : Json
  | arr (elems : List Json) : Json
  | obj (fields : List (Str × Json)) : Json

/-- Value of a hexadecimal digit, if any (codes 48-57, 97-102, 65-70). -/
def hexVal (c : Char) : Option Nat :=
  let n := c.toNat
  if 48 ≤ n && n ≤ 57 then some (n - 48)
  else if 97 ≤ n && n ≤ 102 then some (n - 87)
  else if 65 ≤ n && n ≤ 70 then some (n - 55)
  else none

/-- Body of a JSON string literal, after the opening quote: returns the
decoded characters and the input remaining after the closing quote. -/
def parseStringBody : Str → Option (Str × Str)
  | [] => none
  | '"' :: rest => some ([], rest)
  | '\\' :: 'u' :: h1 :: h2 :: h3 :: h4 :: rest =>
    match hexVal h1, hexVal h2, hexVal h3, hexVal h4 with
    | some a, some b, some c, some d =>
      match parseStringBody rest with
      | some (s, r) => some (Char.ofNat (((a * 16 + b) * 16 + c) * 16 + d) :: s, r)
      | none => none
    | _, _, _, _ => none
  | '\\' :: e :: rest =>
    match
      (match e with
       | 'n' => some '\n'
       | 't' => some '\t'
       | 'r' => some '\r'
       | 'b' => some '\x08'
       | 'f' => some '\x0c'
       | '/' => some '/'
       | '"' => some '"'
       | '\\' => some '\\'
       | _ => none) with
    | some c =>
      match parseStringBody rest with
      | some (s, r) => some (c :: s, r)
      | none => none
    | none => none
  | c :: rest =>
    if c.toNat < 32 then none
    else
      match parseStringBody rest with
      | some (s, r) => some (c :: s, r)
      | none => none

/-- Digits of a JSON number after the optional sign: integer part (a single
zero, or a nonzero digit followed by digits), optional fraction, optional
exponent.  Returns the consumed literal and the remaining input. -/
def parseNumTail (cs : Str) : Option (Str × Str) :=
  match cs with
  | [] => none
  | c :: rest =>
    if c = '0' then some ([c], rest)
    else if digitChar c then
      some (c :: rest.takeWhile digitChar, rest.dropWhile digitChar)
    else none

/-- Optional fraction part `.digits`. -/
def parseFrac (cs : Str) : Option (Str × Str) :=
  match cs with
  | '.' :: rest =>
    match rest with
    | c :: _ =>
      if digitChar c then
        some ('.' :: rest.takeWhile digitChar, rest.dropWhile digitChar)
      else none
    | [] => none
  | _ => some ([], cs)

/-- Optional exponent part `e|E [+|-] digits`. -/
def parseExp (cs : Str) : Option (Str × Str) :=
  match cs with
  | e :: rest =>
    if e = 'e' || e = 'E' then
      let (sgn, rest') :=
        match rest with
        | s :: r => if s = '+' || s = '-' then ([s], r) else (([] : Str), rest)
        | [] => (([] : Str), rest)
      match rest' with
      | c :: _ =>
        if digitChar c then
          some (e :: sgn ++ rest'.takeWhile digitChar, rest'.dropWhile digitChar)
        else none
      | [] => none
    else some ([], cs)
  | [] => some ([], cs)

/-- A JSON number literal with optional leading minus. -/
def parseNumber (cs : Str) : Option (Json × Str) :=
  let (sgn, cs1) :=
    match cs with
    | '-' :: r => ((['-'] : Str), r)
    | _ => (([] : Str), cs)
  match parseNumTail cs1 with
  | none => none
  | some (ip, r1) =>
    match parseFrac r1 with
    | none => none
    | some (fp, r2) =>
      match parseExp r2 with
      | none => none
      | some (ep, r3) => some (Json.num (sgn ++ ip ++ fp ++ ep), r3)

mutual

/-- Fuel-based model of the JSON value grammar recognized by `JSON.parse`:
leading whitespace, then one value. -/
def parseValue : Nat → Str → Option (Json × Str)
  | 0, _ => none
  | Nat.succ fuel, cs =>
    match cs.dropWhile jsonWsChar with
    | '\x7b' :: rest => parseObjBody fuel rest
    | '[' :: rest => parseArrBody fuel rest
    | '"' :: rest =>
      match parseStringBody rest with
      | some (s, r) => some (Json.str s, r)
      | none => none
    | 't' :: 'r' :: 'u' :: 'e' :: r => some (Json.bool true, r)
    | 'f' :: 'a' :: 'l' :: 's' :: 'e' :: r => some (Json.bool false, r)
    | 'n' :: 'u' :: 'l' :: 'l' :: r => some (Json.null, r)
    | other => parseNumber other

/-- Object body after the opening brace: whitespace, then `}` or members. -/
def parseObjBody : Nat → Str → Option (Json × Str)
  | 0, _ => none
  | Nat.succ fuel, cs =>
    match cs.dropWhile jsonWsChar with
    | '\x7d' :: rest => some (Json.obj [], rest)
    | _ => parseMembers fuel cs

/-- One or more `"key": value` members, separated by commas, closed by a
closing brace. -/
def parseMembers : Nat → Str → Option (Json × Str)
  | 0, _ => none
  | Nat.succ fuel, cs =>
    match cs.dropWhile jsonWsChar with
    | '"' :: rest =>
      match parseStringBody rest with
      | some (key, r1) =>
        match r1.dropWhile jsonWsChar with
        | ':' :: r2 =>
          match parseValue fuel r2 with
          | some (v, r3) =>
            match r3.dropWhile jsonWsChar with
            | ',' :: r4 =>
              match parseMembers fuel r4 with
              | some (Json.obj fields, r5) => some (Json.obj ((key, v) :: fields), r5)
              | _ => none
            | '\x7d' :: r4 => some (Json.obj [(key, v)], r4)
            | _ => none
          | none => none
        | _ => none
      | none => none
    | _ => none

/-- Array body after the opening bracket: whitespace, then `]` or elements. -/
def parseArrBody : Nat → Str → Option (Json × Str)
  | 0, _ => none
  | Nat.succ fuel, cs =>
    match cs.dropWhile jsonWsChar with
    | ']' :: rest => some (Json.arr [], rest)
    | _ => parseElems fuel cs

/-- One or more array elements, separated by commas, closed by `]`. -/
def parseElems : Nat → Str → Option (Json × Str)
  | 0, _ => none
  | Nat.succ fuel, cs =>
    match parseValue fuel cs with
    | some (v, r1) =>
      match r1.dropWhile jsonWsChar with
      | ',' :: r2 =>
        match parseElems fuel r2 with
        | some (Json.arr elems, r3) => some (Json.arr (v :: elems), r3)
        | _ => none
      | ']' :: r2 => some (Json.arr [v], r2)
      | _ => none
    | none => none

end

/-- Model of `JSON.parse`: a complete value with surrounding whitespace,
consuming the whole input.  `none` models a thrown `SyntaxError`. -/
def jsonParse (s : Str) : Option Json :=
  match parseValue (s.length + 1) s with
  | some (v, rest) => if (rest.dropWhile jsonWsChar).isEmpty then some v else none
  | none => none

/-- Four-digit uppercase hexadecimal rendering, for string escapes. -/
def hexDigit (n : Nat) : Char :=
  if n < 10 then Char.ofNat ('0'.toNat + n) else Char.ofNat ('A'.toNat + (n - 10))

/-- JSON escape of one character, as emitted by `JSON.stringify`. -/
def escapeChar (c : Char) : Str :=
  if c = '"' then ['\\', '"']
  else if c = '\\' then ['\\', '\\']
  else if c = '\x08' then ['\\', 'b']
  else if c = '\t' then ['\\', 't']
  else if c = '\n' then ['\\', 'n']
  else if c = '\x0c' then ['\\', 'f']
  else if c = '\r' then ['\\', 'r']
  else if c.toNat < 32 then
    ['\\', 'u', '0', '0', hexDigit (c.toNat / 16), hexDigit (c.toNat % 16)]
  else [c]

/-- A JSON string literal with quotes and escapes. -/
def quoteJString (s : Str) : Str :=
  '"' :: (s.map escapeChar).flatten ++ ['"']

/-- Interleave a separator between rendered pieces. -/
def sepJoin (sep : Str) : List Str → Str
  | [] => []
  | [x] => x
  | x :: xs => x ++ sep ++ sepJoin sep xs

mutual

/-- Model of `JSON.stringify(v)` (compact form, used for echoing the
directive arguments back into the output stream). -/
def stringifyCompact : Json → Str
  | Json.null => "null".data
  | Json.bool true => "true".data
  | Json.bool false => "false".data
  | Json.num lit => lit
  | Json.str s => quoteJString s
  | Json.arr elems => '[' :: sepJoin [','] (stringifyElems elems) ++ [']']
  | Json.obj fields => '\x7b' :: sepJoin [','] (stringifyFields fields) ++ ['\x7d']

/-- Compact renderings of array elements. -/
def stringifyElems : List Json → List Str
  | [] => []
  | v :: vs => stringifyCompact v :: stringifyElems vs

/-- Compact renderings of object fields. -/
def stringifyFields : List (Str × Json) → List Str
  | [] => []
  | (k, v) :: fs => (quoteJString k ++ ':' :: stringifyCompact v) :: stringifyFields fs

end

mutual

/-- Model of `JSON.stringify(v, null, 2)` at indentation depth `ind` (the
pretty form used for splicing tool results into the stream). -/
def stringifyPretty (ind : Nat) : Json → Str
  | Json.null => "null".data
  | Json.bool true => "true".data
  | Json.bool false => "false".data
  | Json.num lit => lit
  | Json.str s => quoteJString s
  | Json.arr [] => "[]".data
  | Json.arr (v :: vs) =>
    '[' :: '\n' :: sepJoin (',' :: '\n' :: []) (stringifyPrettyElems (ind + 2) (v :: vs)) ++
      '\n' :: List.replicate ind ' ' ++ [']']
  | Json.obj [] => "\x7b\x7d".data
  | Json.obj (f :: fs) =>
    '\x7b' :: '\n' :: sepJoin (',' :: '\n' :: []) (stringifyPrettyFields (ind + 2) (f :: fs)) ++
      '\n' :: List.replicate ind ' ' ++ ['\x7d']

/-- Pretty renderings of array elements, each on its own indented line. -/
def stringifyPrettyElems (ind : Nat) : List Json → List Str
  | [] => []
  | v :: vs => (List.replicate ind ' ' ++ stringifyPretty ind v) :: stringifyPrettyElems ind vs

/-- Pretty renderings of object fields, each on its own indented line. -/
def stringifyPrettyFields (ind : Nat) : List (Str × Json) → List Str
  | [] => []
  | (k, v) :: fs =>
    (List.replicate ind ' ' ++ quoteJString k ++ ':' :: ' ' :: stringifyPretty ind v) ::
      stringifyPrettyFields ind fs

end

/-- JavaScript `String.prototype.trim` (ASCII whitespace model), as applied
to each scanned line in ollama.ts line 131. -/
def trimWs (s : Str) : Str :=
  ((s.dropWhile wsChar).reverse.dropWhile wsChar).reverse

/-- Remove trailing whitespace; models the `\s*$` tail of the directive
regex (its greedy backtracking admits exactly this decomposition). -/
def trimRightWs (s : Str) : Str :=
  (s.reverse.dropWhile wsChar).reverse

/-- A parsed tool directive: ollama.ts `ToolCall` (line 9),
`\x7b name, args \x7d` with `args` the `JSON.parse` of the argument text. -/
structure ToolCall where
  name : Str
  args : Json

/-- The six-character literal marker of the directive wire format. -/
def toolMarker : Str := "[TOOL]".data

/-- The literal `^\[TOOL\]` anchor of the directive regex: strip the
six-character marker or fail. -/
def dropToolMarker : Str → Option Str
  | '[' :: 'T' :: 'O' :: 'O' :: 'L' :: ']' :: rest => some rest
  | _ => none

/-- ollama.ts lines 11-21, `parseToolCall`: hand compilation of
`line.match(/^\[TOOL\]\s*(\w+)\s*(\{.*\})\s*$/)` followed by
`JSON.parse` of the second capture group, returning `null` (here `none`)
when the regex does not match or the JSON does not parse.

The compilation is exact because the regex is deterministic: `\s`, `\w`
and the braces are pairwise disjoint character classes, so each starred
class must consume its maximal run, and the greedy `(\{.*\})\s*$` group
matches precisely when the remainder starts with an opening brace and its
last non-whitespace character is a closing brace (any earlier closing
brace is followed by the later one, which is not whitespace), with the
`.*` region free of line terminators. -/
def parseToolCall (line : Str) : Option ToolCall :=
  match dropToolMarker line with
  | none => none
  | some r1 =>
    match (r1.dropWhile wsChar).takeWhile wChar with
    | [] => none
    | n0 :: nm' =>
      match trimRightWs (((r1.dropWhile wsChar).dropWhile wChar).dropWhile wsChar) with
      | '\x7b' :: mid =>
        if mid.getLast? = some '\x7d' ∧ mid.dropLast.all dotChar then
          match jsonParse ('\x7b' :: mid) with
          | some v => some ⟨n0 :: nm', v⟩
          | none => none
        else none
      | _ => none

/-- `textBuf.split(/\r?\n/)` (ollama.ts line 128): split on `\r\n` or
`\n`; a lone carriage return is not a separator. -/
def splitTextLines : Str → List Str
  | [] => [[]]
  | '\r' :: '\n' :: rest => [] :: splitTextLines rest
  | '\n' :: rest =>
    [] :: splitTextLines rest
  | c :: rest =>
    match splitTextLines rest with
    | [] => [[c]]
    | l :: ls => (c :: l) :: ls

/-- `Array.prototype.join('\n')` as used on lines 137 and 165. -/
def joinNL : List Str → Str
  | [] => []
  | [l] => l
  | l :: ls => l ++ '\n' :: joinNL ls

/-- The `for (let i = 0; ...)` scan of ollama.ts lines 130-168: find the
first line whose trim parses as a directive; return the lines before it,
the directive, and the lines after it. -/
def scanForDirective : List Str → Option (List Str × ToolCall × List Str)
  | [] => none
  | l :: ls =>
    match parseToolCall (trimWs l) with
    | some tc => some ([], tc, ls)
    | none =>
      match scanForDirective ls with
      | some (pre, tc, post) => some (l :: pre, tc, post)
      | none => none

/-- Message roles of ollama.ts line 1. -/
inductive Role where
  | system : Role
  | user : Role
  | assistant : Role
deriving DecidableEq, Repr

/-- ollama.ts `ChatMessage` (line 1). -/
structure ChatMessage where
  role : Role
  content : Str
deriving DecidableEq, Repr

/-- The two providers of ollama.ts line 36. -/
inductive Provider where
  | ollama : Provider
  | openrouter : Provider
deriving DecidableEq, Repr

/-- Provider name as interpolated into the connection-failure message. -/
def providerName : Provider → Str
  | Provider.ollama => "ollama".data
  | Provider.openrouter => "openrouter".data

/-- Outcome of one `fetch` of the model stream: either a connection
failure (`!res.ok || !res.body`, line 75, with the response's status and
status text), or the stream's read cycles, each carrying the decoded
content that ollama.ts lines 90-125 append to `textBuf` and
`fullResponse` during that cycle. -/
inductive FetchStep where
  | fail (status : Str) (statusText : Str) : FetchStep
  | ok (chunks : List Str) : FetchStep

/-- The Model Stream Source as seen by the loop: the outcome of the n-th
model invocation (0-based) given the conversation sent with it. -/
abbrev StreamSource := Nat → List ChatMessage → FetchStep

/-- The tool executor behind `callMcpTool` (ollama.ts lines 23-34): a
result value, or a thrown error carrying the message `e?.message`. -/
abbrev ToolExec := Str → Json → Except Str Json

/-- Per-iteration mutable state of the inner read loop (ollama.ts lines
81-84), plus the fragments yielded so far. -/
structure IterSt where
  textBuf : Str
  fullResponse : Str
  toolCallsExecuted : Nat
  outputs : List Str
deriving Repr

/-- Initial inner-loop state (line 81-84: empty buffers, zero calls). -/
def initIterSt : IterSt := ⟨[], [], 0, []⟩

/-- The yielded echo of a detected directive (ollama.ts line 143). -/
def echoText (tc : ToolCall) : Str :=
  '\n' :: "[TOOL] ".data ++ tc.name ++ ' ' :: stringifyCompact tc.args ++ ['\n']

/-- The yielded executing marker (ollama.ts line 144). -/
def callingText (tc : ToolCall) : Str :=
  '\n' :: "[calling MCP ".data ++ tc.name ++ " ...]\n".data

/-- The result block of a successful tool call (ollama.ts line 148). -/
def resultText (tc : ToolCall) (result : Json) : Str :=
  '\n' :: "[MCP ".data ++ tc.name ++ " result]\n".data ++ stringifyPretty 0 result ++ ['\n']

/-- The error block of a failed tool call (ollama.ts line 157). -/
def errorText (tc : ToolCall) (msg : Str) : Str :=
  '\n' :: "[MCP ".data ++ tc.name ++ " error] ".data ++ msg ++
    "\n[Hint] Ensure MCP proxy http://localhost:8787 is running and REPAIR_FILES_ROOT is set.\n".data

/-- The text preceding a directive, yielded only when nonempty
(ollama.ts lines 137-140: `if (beforeToolCall) yield beforeToolCall`). -/
def beforeYield (pre : List Str) : List Str :=
  if (joinNL pre).isEmpty then [] else [joinNL pre]

/-- One `reader.read()` cycle of the inner loop (ollama.ts lines 86-168),
at the content-delta level: append the cycle's decoded content to both
buffers (lines 108-109 / 119-120), then run the directive scan (lines
127-168), which executes at most the first recognized directive and
breaks. -/
def runCycle (exec : ToolExec) (st : IterSt) (chunk : Str) : IterSt :=
  let textBuf := st.textBuf ++ chunk
  let fullResponse := st.fullResponse ++ chunk
  match scanForDirective (splitTextLines textBuf) with
  | none =>
    { st with textBuf := textBuf, fullResponse := fullResponse }
  | some (pre, tc, post) =>
    match exec tc.name tc.args with
    | Except.ok result =>
      { textBuf := joinNL post,
        fullResponse := fullResponse ++ resultText tc result,
        toolCallsExecuted := st.toolCallsExecuted + 1,
        outputs := st.outputs ++ beforeYield pre ++
          [echoText tc, callingText tc, resultText tc result] }
    | Except.error msg =>
      { textBuf := joinNL post,
        fullResponse := fullResponse ++ errorText tc msg,
        toolCallsExecuted := st.toolCallsExecuted + 1,
        outputs := st.outputs ++ beforeYield pre ++
          [echoText tc, callingText tc, errorText tc msg] }

/-- Observable outcome of one outer iteration's stream processing. -/
structure RoundResult where
  content : Str
  toolCalls : Nat
  outputs : List Str
deriving Repr

/-- One outer iteration's stream handling (ollama.ts lines 79-175): fold
the read cycles, then flush any remaining buffered text (lines 171-175:
yielded and appended to `fullResponse` when nonempty).  `content` is the
`fullResponse` that becomes the iteration's assistant History entry. -/
def runRound (exec : ToolExec) (chunks : List Str) : RoundResult :=
  let st := List.foldl (runCycle exec) initIterSt chunks
  if st.textBuf.isEmpty then
    ⟨st.fullResponse, st.toolCallsExecuted, st.outputs⟩
  else
    ⟨st.fullResponse ++ st.textBuf, st.toolCallsExecuted, st.outputs ++ [st.textBuf]⟩

/-- The synthetic continuation nudge (ollama.ts lines 190-193). -/
def nudgeMsg : ChatMessage :=
  ⟨Role.user,
   "Continue gathering any additional information needed to fully answer the original question.".data⟩

/-- `maxIterations` (ollama.ts line 40). -/
def maxIterations : Nat := 10

/-- The terminal notice of ollama.ts line 204. -/
def noticeText : Str :=
  "\n\n[Maximum iterations (10) reached. Stopping to prevent infinite loop.]".data

/-- The missing-credential error of ollama.ts line 49. -/
def apiKeyErrorMsg : Str :=
  "OpenRouter API key is required".data

/-- The connection-failure error of ollama.ts line 76. -/
def chatFailedMsg (provider : Provider) (status statusText : Str) : Str :=
  providerName provider ++ " chat failed: ".data ++ status ++ ' ' :: statusText

/-- Everything one call of the `ollamaChat` generator did: the yielded
fragments in order, the final `currentMessages`, the number of model
invocations whose stream was read (`rounds`), the `toolCallsExecuted`
count of the last completed round, whether the iteration cap was hit,
and the propagated error if the generator threw. -/
structure ChatResult where
  outputs : List Str
  messages : List ChatMessage
  rounds : Nat
  lastToolCalls : Nat
  maxedOut : Bool
  error : Option Str
deriving DecidableEq, Repr

/-- The `while (iterationCount < maxIterations)` loop of ollama.ts lines
42-201 plus the final notice of lines 203-205, recursing on the fuel
`maxIterations - iterationCount`:

- fuel 0 is the loop condition failing with `iterationCount >= 10`, after
  which line 204 yields the maximum-iterations notice;
- otherwise: the missing-key check (lines 47-50) and the fetch; a failed
  fetch throws (lines 75-77) and the error propagates out of the
  generator, aborting the turn with History unchanged;
- a successful round appends one assistant message holding the round's
  full accumulated text (line 180); zero executed tool calls break the
  loop (lines 183-186); otherwise the nudge user message is appended and
  `iterationCount` is incremented (lines 190-195). -/
def chatLoop (exec : ToolExec) (streamOf : StreamSource) (provider : Provider)
    (apiKey : Option Str) :
    Nat → List ChatMessage → List Str → Nat → Nat → ChatResult
  | 0, msgs, outs, rounds, lastTc =>
    ⟨outs ++ [noticeText], msgs, rounds, lastTc, true, none⟩
  | Nat.succ fuel, msgs, outs, rounds, lastTc =>
    if provider = Provider.openrouter ∧ apiKey = none then
      ⟨outs, msgs, rounds, lastTc, false, some apiKeyErrorMsg⟩
    else
      match streamOf rounds msgs with
      | FetchStep.fail s t =>
        ⟨outs, msgs, rounds, lastTc, false, some (chatFailedMsg provider s t)⟩
      | FetchStep.ok chunks =>
        let r := runRound exec chunks
        let msgs' := msgs ++ [⟨Role.assistant, r.content⟩]
        if r.toolCalls = 0 then
          ⟨outs ++ r.outputs, msgs', rounds + 1, r.toolCalls, false, none⟩
        else
          chatLoop exec streamOf provider apiKey fuel (msgs' ++ [nudgeMsg])
            (outs ++ r.outputs) (rounds + 1) r.toolCalls

/-- ollama.ts lines 36-206, `ollamaChat`: run one user turn.  The model
identifier is absorbed into the stream oracle; `messages` is copied into
`currentMessages` (line 38) and only ever appended to. -/
def ollamaChat (exec : ToolExec) (streamOf : StreamSource) (provider : Provider)
    (apiKey : Option Str) (messages : List ChatMessage) : ChatResult :=
  chatLoop exec streamOf provider apiKey maxIterations messages [] 0 0

/-- The character classes `\s` and `\w` are disjoint: a whitespace
character is not a word character. -/
theorem wChar_eq_false_of_wsChar (c : Char) (h : wsChar c = true) : wChar c = false := by
  simp only [wsChar, Bool.or_eq_true, decide_eq_true_eq] at h
  rcases h with ((((rfl | rfl) | rfl) | rfl) | rfl) | rfl <;> decide

/-- The character classes `\w` and `\s` are disjoint: a word character is
not a whitespace character. -/
theorem wsChar_eq_false_of_wChar (c : Char) (h : wChar c = true) : wsChar c = false := by
  cases hw : wsChar c with
  | false => rfl
  | true => rw [wChar_eq_false_of_wsChar c hw] at h; cases h

/-- Dropping a predicate-satisfying run is transparent to `dropWhile`. -/
theorem dropWhile_append_all (p : Char → Bool) :
    ∀ (a b : Str), (∀ c ∈ a, p c = true) →
      List.dropWhile p (a ++ b) = List.dropWhile p b := by
  intro a
  induction a with
  | nil => intro b _; rfl
  | cons c a ih =>
    intro b h
    have hc : p c = true := h c (by simp)
    rw [List.cons_append, List.dropWhile_cons, hc]
    exact ih b (fun x hx => h x (by simp [hx]))

/-- `dropWhile` is the identity on a list whose head falsifies `p`. -/
theorem dropWhile_cons_neg (p : Char → Bool) (c : Char) (l : Str) (h : p c = false) :
    List.dropWhile p (c :: l) = c :: l := by
  rw [List.dropWhile_cons, h]
  rfl

/-- `dropWhile` consumes exactly an all-`p` run followed by a stopper. -/
theorem dropWhile_append_stop (p : Char → Bool) (a b : Str)
    (h : ∀ c ∈ a, p c = true) (hb : ∀ c l, b = c :: l → p c = false) :
    List.dropWhile p (a ++ b) = b := by
  rw [dropWhile_append_all p a b h]
  cases b with
  | nil => rfl
  | cons c l => exact dropWhile_cons_neg p c l (hb c l rfl)

/-- `takeWhile` takes exactly an all-`p` run followed by a stopper. -/
theorem takeWhile_append_stop (p : Char → Bool) :
    ∀ (a b : Str), (∀ c ∈ a, p c = true) →
      (∀ c l, b = c :: l → p c = false) →
      List.takeWhile p (a ++ b) = a := by
  intro a
  induction a with
  | nil =>
    intro b _ hb
    cases b with
    | nil => rfl
    | cons c l => simp [List.takeWhile_cons, hb c l rfl]
  | cons c a ih =>
    intro b h hb
    have hc : p c = true := h c (by simp)
    rw [List.cons_append, List.takeWhile_cons, hc,
      ih b (fun x hx => h x (by simp [hx])) hb]
    simp

/-- The head of a `dropWhile` result falsifies the predicate. -/
theorem dropWhile_head_false (p : Char → Bool) :
    ∀ (l : Str) (c : Char) (r : Str), List.dropWhile p l = c :: r → p c = false := by
  intro l
  induction l with
  | nil => intro c r h; simp at h
  | cons x xs ih =>
    intro c r h
    cases hx : p x with
    | true =>
      rw [List.dropWhile_cons, hx] at h
      exact ih c r (by simpa using h)
    | false =>
      rw [List.dropWhile_cons, hx] at h
      simp at h
      rw [← h.1]
      exact hx

/-- Every string splits as its right-trim plus a whitespace tail. -/
theorem trimRightWs_decomp (s : Str) :
    ∃ w, s = trimRightWs s ++ w ∧ ∀ c ∈ w, wsChar c = true := by
  refine ⟨(s.reverse.takeWhile wsChar).reverse, ?_, ?_⟩
  · conv_lhs => rw [← List.reverse_reverse s,
      ← List.takeWhile_append_dropWhile (p := wsChar) (l := s.reverse)]
    rw [List.reverse_append]
    rfl
  · intro c hc
    rw [List.mem_reverse] at hc
    exact List.mem_takeWhile_imp hc

/-- Right-trimming removes exactly a trailing whitespace run when what
precedes it ends in a non-whitespace character. -/
theorem trimRightWs_append_ws (s w : Str) (hw : ∀ c ∈ w, wsChar c = true)
    (hs : ∀ c r, s.reverse = c :: r → wsChar c = false) :
    trimRightWs (s ++ w) = s := by
  unfold trimRightWs
  rw [List.reverse_append,
    dropWhile_append_all wsChar w.reverse s.reverse
      (fun c hc => hw c (List.mem_reverse.mp hc))]
  cases hrev : s.reverse with
  | nil =>
    simp only [List.dropWhile_nil, List.reverse_nil]
    rw [← List.reverse_reverse s, hrev, List.reverse_nil]
  | cons c r =>
    rw [dropWhile_cons_neg wsChar c r (hs c r hrev), ← hrev, List.reverse_reverse]

/-- The split of a text buffer always has at least one segment. -/
theorem splitTextLines_ne_nil : ∀ s : Str, splitTextLines s ≠ [] := by
  intro s
  induction s using splitTextLines.induct with
  | case1 => simp [splitTextLines]
  | case2 rest ih => simp [splitTextLines]
  | case3 rest ih => simp [splitTextLines]
  | case4 c rest hx1 hx2 heq ih =>
    rw [splitTextLines.eq_4 c rest hx1 hx2, heq]
    simp
  | case5 c rest hx1 hx2 l ls heq ih =>
    rw [splitTextLines.eq_4 c rest hx1 hx2, heq]
    simp

/-- A buffer without a newline splits into the single (unterminated)
segment that is the whole buffer. -/
theorem splitTextLines_no_nl : ∀ s : Str, ¬ '\n' ∈ s → splitTextLines s = [s] := by
  intro s
  induction s using splitTextLines.induct with
  | case1 => intro _; rfl
  | case2 rest ih => intro h; simp at h
  | case3 rest ih => intro h; simp at h
  | case4 c rest hx1 hx2 heq ih =>
    intro h
    have hrest : ¬ '\n' ∈ rest := fun hr => h (by simp [hr])
    rw [ih hrest] at heq
    cases heq
  | case5 c rest hx1 hx2 l ls heq ih =>
    intro h
    have hrest : ¬ '\n' ∈ rest := fun hr => h (by simp [hr])
    have h2 := ih hrest
    rw [heq] at h2
    simp only [List.cons.injEq] at h2
    obtain ⟨h3, h4⟩ := h2
    rw [splitTextLines.eq_4 c rest hx1 hx2, heq, h3, h4]

/-- Unfolding `joinNL` on two or more segments. -/
theorem joinNL_cons_cons (l x : Str) (xs : List Str) :
    joinNL (l :: x :: xs) = l ++ '\n' :: joinNL (x :: xs) := rfl

/-- A head character distributes out of `joinNL`. -/
theorem joinNL_cons_head (c : Char) (l : Str) (ls : List Str) :
    joinNL ((c :: l) :: ls) = c :: joinNL (l :: ls) := by
  cases ls with
  | nil => rfl
  | cons x xs => rfl

/-- Joining a tail of the segment list yields a sublist of the join. -/
theorem sub_joinNL_cons (l : Str) (post : List Str) :
    List.Sublist (joinNL post) (joinNL (l :: post)) := by
  cases post with
  | nil => exact List.nil_sublist _
  | cons x xs =>
    rw [joinNL_cons_cons]
    exact List.Sublist.trans (List.sublist_cons_self _ _) (List.sublist_append_right _ _)

/-- Joining a suffix of the segment list yields a sublist of the join. -/
theorem sub_joinNL_append (pre post : List Str) :
    List.Sublist (joinNL post) (joinNL (pre ++ post)) := by
  induction pre with
  | nil => exact List.Sublist.refl _
  | cons q pre ih => exact ih.trans (sub_joinNL_cons q (pre ++ post))

/-- Re-joining the split of a buffer is a sublist of the buffer (equality
up to the collapse of `\r\n` separators to `\n`). -/
theorem joinNL_splitTextLines_sub : ∀ s : Str, List.Sublist (joinNL (splitTextLines s)) s := by
  intro s
  induction s using splitTextLines.induct with
  | case1 => exact List.Sublist.refl _
  | case2 rest ih =>
    show List.Sublist (joinNL ([] :: splitTextLines rest)) ('\x0d' :: '\n' :: rest)
    obtain ⟨l, ls, hls⟩ := List.exists_cons_of_ne_nil (splitTextLines_ne_nil rest)
    rw [hls, joinNL_cons_cons, List.nil_append]
    exact List.Sublist.cons _ (List.Sublist.cons₂ _ (by rw [← hls]; exact ih))
  | case3 rest ih =>
    show List.Sublist (joinNL ([] :: splitTextLines rest)) ('\n' :: rest)
    obtain ⟨l, ls, hls⟩ := List.exists_cons_of_ne_nil (splitTextLines_ne_nil rest)
    rw [hls, joinNL_cons_cons, List.nil_append]
    exact List.Sublist.cons₂ _ (by rw [← hls]; exact ih)
  | case4 c rest hx1 hx2 heq ih =>
    rw [splitTextLines.eq_4 c rest hx1 hx2, heq]
    exact List.Sublist.cons₂ _ (List.nil_sublist _)
  | case5 c rest hx1 hx2 l ls heq ih =>
    rw [splitTextLines.eq_4 c rest hx1 hx2, heq, joinNL_cons_head]
    exact List.Sublist.cons₂ _ (by rw [← heq]; exact ih)

/-- Inversion of the directive scan: a hit decomposes the line list into
the untested-no-more lines before the directive (none of which parses as
a directive), the directive line itself, and the retained lines after. -/
theorem scanForDirective_some :
    ∀ (lines pre : List Str) (tc : ToolCall) (post : List Str),
      scanForDirective lines = some (pre, tc, post) →
      ∃ l, lines = pre ++ l :: post ∧ parseToolCall (trimWs l) = some tc ∧
        ∀ l' ∈ pre, parseToolCall (trimWs l') = none := by
  intro lines
  induction lines with
  | nil => intro pre tc post h; simp [scanForDirective] at h
  | cons l ls ih =>
    intro pre tc post h
    unfold scanForDirective at h
    cases hp : parseToolCall (trimWs l) with
    | some tc' =>
      rw [hp] at h
      simp only [Option.some.injEq, Prod.mk.injEq] at h
      obtain ⟨h1, h2, h3⟩ := h
      refine ⟨l, ?_, ?_, ?_⟩
      · rw [← h1, ← h3]; rfl
      · rw [hp, h2]
      · intro l' hl'; rw [← h1] at hl'; simp at hl'
    | none =>
      rw [hp] at h
      cases hs : scanForDirective ls with
      | none => rw [hs] at h; cases h
      | some trip =>
        obtain ⟨pre', tc', post'⟩ := trip
        rw [hs] at h
        simp only [Option.some.injEq, Prod.mk.injEq] at h
        obtain ⟨h1, h2, h3⟩ := h
        obtain ⟨m, hm1, hm2, hm3⟩ := ih pre' tc' post' hs
        refine ⟨m, ?_, ?_, ?_⟩
        · rw [← h1, ← h3, hm1]; rfl
        · rw [hm2, h2]
        · intro l' hl'
          rw [← h1] at hl'
          rcases List.mem_cons.mp hl' with rfl | hmem
          · exact hp
          · exact hm3 l' hmem

/-- A read cycle in which the scan finds no directive only accumulates:
nothing is yielded, both buffers grow by the chunk, the counter is
unchanged. -/
theorem runCycle_none (exec : ToolExec) (st : IterSt) (chunk : Str)
    (h : scanForDirective (splitTextLines (st.textBuf ++ chunk)) = none) :
    runCycle exec st chunk =
      ⟨st.textBuf ++ chunk, st.fullResponse ++ chunk, st.toolCallsExecuted, st.outputs⟩ := by
  simp only [runCycle, h]

/-- A read cycle whose scan hits a directive and whose executor succeeds:
the preceding text is yielded (when nonempty), then the echo, the calling
marker and the result block; the result block is folded into
`fullResponse`; the counter increments by one; the buffer restarts from
the lines after the directive. -/
theorem runCycle_ok (exec : ToolExec) (st : IterSt) (chunk : Str)
    (pre : List Str) (tc : ToolCall) (post : List Str) (rv : Json)
    (h : scanForDirective (splitTextLines (st.textBuf ++ chunk)) = some (pre, tc, post))
    (he : exec tc.name tc.args = Except.ok rv) :
    runCycle exec st chunk =
      ⟨joinNL post, st.fullResponse ++ chunk ++ resultText tc rv,
       st.toolCallsExecuted + 1,
       st.outputs ++ beforeYield pre ++ [echoText tc, callingText tc, resultText tc rv]⟩ := by
  simp only [runCycle, h, he, List.append_assoc]

/-- A read cycle whose scan hits a directive and whose executor throws:
identical to the success shape, with the error block in place of the
result block — still yielded, still folded into `fullResponse`, and still
counted as an executed tool call. -/
theorem runCycle_err (exec : ToolExec) (st : IterSt) (chunk : Str)
    (pre : List Str) (tc : ToolCall) (post : List Str) (msg : Str)
    (h : scanForDirective (splitTextLines (st.textBuf ++ chunk)) = some (pre, tc, post))
    (he : exec tc.name tc.args = Except.error msg) :
    runCycle exec st chunk =
      ⟨joinNL post, st.fullResponse ++ chunk ++ errorText tc msg,
       st.toolCallsExecuted + 1,
       st.outputs ++ beforeYield pre ++ [echoText tc, callingText tc, errorText tc msg]⟩ := by
  simp only [runCycle, h, he, List.append_assoc]

/-- No read cycle of the given chunk sequence, starting from the given
text buffer, makes the directive scan fire.  Mirrors the per-cycle scan
over the accumulating buffer. -/
def noDirAfter : Str → List Str → Bool
  | _, [] => true
  | tb, c :: cs =>
    match scanForDirective (splitTextLines (tb ++ c)) with
    | some _ => false
    | none => noDirAfter (tb ++ c) cs

/-- When no cycle fires the scan, folding the read cycles only
accumulates the concatenated deltas into both buffers. -/
theorem foldl_runCycle_noDir (exec : ToolExec) :
    ∀ (cs : List Str) (tb fr : Str) (k : Nat) (os : List Str),
      noDirAfter tb cs = true →
      List.foldl (runCycle exec) ⟨tb, fr, k, os⟩ cs =
        ⟨tb ++ cs.flatten, fr ++ cs.flatten, k, os⟩ := by
  intro cs
  induction cs with
  | nil => intro tb fr k os _; simp
  | cons c cs ih =>
    intro tb fr k os h
    unfold noDirAfter at h
    cases hs : scanForDirective (splitTextLines (tb ++ c)) with
    | some x => rw [hs] at h; cases h
    | none =>
      rw [hs] at h
      rw [List.foldl_cons, runCycle_none exec ⟨tb, fr, k, os⟩ c hs,
        ih (tb ++ c) (fr ++ c) k os h]
      simp

/-- One read cycle preserves the invariant that the scan buffer is a
sublist of the accumulated response: whatever the end-of-stream flush
will append was already folded into `fullResponse` once. -/
theorem runCycle_textBuf_sub (exec : ToolExec) (st : IterSt) (chunk : Str)
    (h : List.Sublist st.textBuf st.fullResponse) :
    List.Sublist (runCycle exec st chunk).textBuf
      (runCycle exec st chunk).fullResponse := by
  cases hs : scanForDirective (splitTextLines (st.textBuf ++ chunk)) with
  | none =>
    rw [runCycle_none exec st chunk hs]
    exact h.append (List.Sublist.refl chunk)
  | some trip =>
    obtain ⟨pre, tc, post⟩ := trip
    have hpost : List.Sublist (joinNL post) (st.textBuf ++ chunk) := by
      obtain ⟨l, hl, -, -⟩ := scanForDirective_some _ _ _ _ hs
      have h1 : List.Sublist (joinNL post)
          (joinNL (splitTextLines (st.textBuf ++ chunk))) := by
        rw [hl]
        exact (sub_joinNL_cons l post).trans (sub_joinNL_append pre (l :: post))
      exact h1.trans (joinNL_splitTextLines_sub _)
    have hfull : List.Sublist (joinNL post) (st.fullResponse ++ chunk) :=
      hpost.trans (h.append (List.Sublist.refl chunk))
    cases he : exec tc.name tc.args with
    | ok rv =>
      rw [runCycle_ok exec st chunk pre tc post rv hs he]
      exact hfull.trans (List.sublist_append_left _ _)
    | error m =>
      rw [runCycle_err exec st chunk pre tc post m hs he]
      exact hfull.trans (List.sublist_append_left _ _)

/-- The scan-buffer-is-a-sublist invariant holds after any sequence of
read cycles. -/
theorem foldl_runCycle_sub (exec : ToolExec) :
    ∀ (cs : List Str) (st : IterSt),
      List.Sublist st.textBuf st.fullResponse →
      List.Sublist (List.foldl (runCycle exec) st cs).textBuf
        (List.foldl (runCycle exec) st cs).fullResponse := by
  intro cs
  induction cs with
  | nil => intro st h; exact h
  | cons c cs ih => intro st h; exact ih _ (runCycle_textBuf_sub exec st c h)

/-- The end-of-stream flush in one equation: the round's history content
is the accumulated response plus the final buffer, and the final buffer
is yielded once more as the round's last output when nonempty. -/
theorem runRound_eq (exec : ToolExec) (chunks : List Str) :
    runRound exec chunks =
      ⟨(List.foldl (runCycle exec) initIterSt chunks).fullResponse ++
         (List.foldl (runCycle exec) initIterSt chunks).textBuf,
       (List.foldl (runCycle exec) initIterSt chunks).toolCallsExecuted,
       (List.foldl (runCycle exec) initIterSt chunks).outputs ++
         (if (List.foldl (runCycle exec) initIterSt chunks).textBuf.isEmpty then []
          else [(List.foldl (runCycle exec) initIterSt chunks).textBuf])⟩ := by
  simp only [runRound]
  cases hE : (List.foldl (runCycle exec) initIterSt chunks).textBuf.isEmpty with
  | true =>
    rw [List.isEmpty_iff] at hE
    simp [hE]
  | false => simp [hE]

/-- Exhausted fuel: the loop condition `iterationCount < maxIterations`
fails and the maximum-iterations notice is the final yield. -/
theorem chatLoop_zero (exec : ToolExec) (streamOf : StreamSource) (provider : Provider)
    (apiKey : Option Str) (msgs : List ChatMessage) (outs : List Str) (rounds lastTc : Nat) :
    chatLoop exec streamOf provider apiKey 0 msgs outs rounds lastTc =
      ⟨outs ++ [noticeText], msgs, rounds, lastTc, true, none⟩ := rfl

/-- A failed fetch propagates as an error, with no History entry for the
iteration, no yields, and no retry. -/
theorem chatLoop_succ_fail (exec : ToolExec) (streamOf : StreamSource) (provider : Provider)
    (apiKey : Option Str) (fuel : Nat) (msgs : List ChatMessage) (outs : List Str)
    (rounds lastTc : Nat) (s t : Str)
    (hk : ¬(provider = Provider.openrouter ∧ apiKey = none))
    (hs : streamOf rounds msgs = FetchStep.fail s t) :
    chatLoop exec streamOf provider apiKey (fuel + 1) msgs outs rounds lastTc =
      ⟨outs, msgs, rounds, lastTc, false, some (chatFailedMsg provider s t)⟩ := by
  simp only [chatLoop, hs]
  rw [if_neg hk]

/-- One successful round: exactly one assistant entry is appended after
the whole stream is processed; the loop breaks on zero executed tool
calls and otherwise appends the nudge and recurses. -/
theorem chatLoop_succ_ok (exec : ToolExec) (streamOf : StreamSource) (provider : Provider)
    (apiKey : Option Str) (fuel : Nat) (msgs : List ChatMessage) (outs : List Str)
    (rounds lastTc : Nat) (chunks : List Str)
    (hk : ¬(provider = Provider.openrouter ∧ apiKey = none))
    (hs : streamOf rounds msgs = FetchStep.ok chunks) :
    chatLoop exec streamOf provider apiKey (fuel + 1) msgs outs rounds lastTc =
      (if (runRound exec chunks).toolCalls = 0 then
        ⟨outs ++ (runRound exec chunks).outputs,
         msgs ++ [⟨Role.assistant, (runRound exec chunks).content⟩],
         rounds + 1, (runRound exec chunks).toolCalls, false, none⟩
       else
        chatLoop exec streamOf provider apiKey fuel
          (msgs ++ [⟨Role.assistant, (runRound exec chunks).content⟩] ++ [nudgeMsg])
          (outs ++ (runRound exec chunks).outputs) (rounds + 1)
          (runRound exec chunks).toolCalls) := by
  simp only [chatLoop, hs]
  rw [if_neg hk]

/-- Combined loop invariants: History is append-only; at most `fuel`
further rounds run; the notice fires exactly on fuel exhaustion and is
then the last yield; an error-free, notice-free run ended with a round
that executed zero tool calls. -/
theorem chatLoop_invariants (exec : ToolExec) (streamOf : StreamSource) (provider : Provider)
    (apiKey : Option Str) :
    ∀ (fuel : Nat) (msgs : List ChatMessage) (outs : List Str) (rounds lastTc : Nat),
      (∃ t, (chatLoop exec streamOf provider apiKey fuel msgs outs rounds lastTc).messages
          = msgs ++ t) ∧
      (chatLoop exec streamOf provider apiKey fuel msgs outs rounds lastTc).rounds
          ≤ rounds + fuel ∧
      ((chatLoop exec streamOf provider apiKey fuel msgs outs rounds lastTc).maxedOut = true →
        (chatLoop exec streamOf provider apiKey fuel msgs outs rounds lastTc).rounds
            = rounds + fuel ∧
        (chatLoop exec streamOf provider apiKey fuel msgs outs rounds lastTc).outputs.getLast?
            = some noticeText) ∧
      ((chatLoop exec streamOf provider apiKey fuel msgs outs rounds lastTc).error = none →
        (chatLoop exec streamOf provider apiKey fuel msgs outs rounds lastTc).maxedOut = false →
        (chatLoop exec streamOf provider apiKey fuel msgs outs rounds lastTc).lastToolCalls = 0) := by
  intro fuel
  induction fuel with
  | zero =>
    intro msgs outs rounds lastTc
    rw [chatLoop_zero]
    refine ⟨⟨[], by simp⟩, by simp, fun _ => ⟨rfl, ?_⟩, fun _ h => by cases h⟩
    simp
  | succ fuel ih =>
    intro msgs outs rounds lastTc
    by_cases hk : provider = Provider.openrouter ∧ apiKey = none
    · have hstep : chatLoop exec streamOf provider apiKey (fuel + 1) msgs outs rounds lastTc =
          ⟨outs, msgs, rounds, lastTc, false, some apiKeyErrorMsg⟩ := by
        simp only [chatLoop]
        rw [if_pos hk]
      rw [hstep]
      refine ⟨⟨[], by simp⟩, by simp, ?_, ?_⟩
      · intro h; cases h
      · intro h; cases h
    · cases hs : streamOf rounds msgs with
      | fail s t =>
        rw [chatLoop_succ_fail exec streamOf provider apiKey fuel msgs outs rounds lastTc s t hk hs]
        refine ⟨⟨[], by simp⟩, by simp, ?_, ?_⟩
        · intro h; cases h
        · intro h; cases h
      | ok chunks =>
        rw [chatLoop_succ_ok exec streamOf provider apiKey fuel msgs outs rounds lastTc chunks hk hs]
        by_cases htc : (runRound exec chunks).toolCalls = 0
        · rw [if_pos htc]
          refine ⟨⟨_, rfl⟩, ?_, ?_, ?_⟩
          · show rounds + 1 ≤ rounds + (fuel + 1)
            omega
          · intro h; cases h
          · intro _ _; exact htc
        · rw [if_neg htc]
          obtain ⟨⟨t, ht⟩, h2, h3, h4⟩ :=
            ih (msgs ++ [⟨Role.assistant, (runRound exec chunks).content⟩] ++ [nudgeMsg])
              (outs ++ (runRound exec chunks).outputs) (rounds + 1) (runRound exec chunks).toolCalls
          refine ⟨⟨[⟨Role.assistant, (runRound exec chunks).content⟩] ++ [nudgeMsg] ++ t, ?_⟩,
            by omega, ?_, h4⟩
          · rw [ht]; simp
          · intro h
            obtain ⟨h5, h6⟩ := h3 h
            exact ⟨by omega, h6⟩

/-- The shape required by the capture group `(\{.*\})`: an opening brace,
an interior free of line terminators, a closing brace. -/
def JsonObjShape (js : Str) : Prop :=
  ∃ mid, js = '\x7b' :: mid ++ ['\x7d'] ∧ ∀ c ∈ mid, dotChar c = true

/-- Declarative reading of the directive format exactly as the code's
regex accepts it: the literal marker, optional whitespace, a nonempty
identifier, optional whitespace, a brace-delimited span that parses as
JSON, and optional trailing whitespace. -/
def RegexDirective (line : Str) (tc : ToolCall) : Prop :=
  ∃ w1 nm w2 js w3 v,
    line = toolMarker ++ (w1 ++ (nm ++ (w2 ++ (js ++ w3)))) ∧
    (∀ c ∈ w1, wsChar c = true) ∧
    nm ≠ [] ∧ (∀ c ∈ nm, wChar c = true) ∧
    (∀ c ∈ w2, wsChar c = true) ∧
    (∀ c ∈ w3, wsChar c = true) ∧
    JsonObjShape js ∧ jsonParse js = some v ∧ tc = ⟨nm, v⟩

/-- The claim's stricter reading of the wire format: marker, mandatory
whitespace, identifier, mandatory whitespace, then a JSON object
occupying the entire remainder of the line. -/
def ClaimedDirective (line : Str) (tc : ToolCall) : Prop :=
  ∃ w1 nm w2 js v,
    line = toolMarker ++ (w1 ++ (nm ++ (w2 ++ js))) ∧
    w1 ≠ [] ∧ (∀ c ∈ w1, wsChar c = true) ∧
    nm ≠ [] ∧ (∀ c ∈ nm, wChar c = true) ∧
    w2 ≠ [] ∧ (∀ c ∈ w2, wsChar c = true) ∧
    JsonObjShape js ∧ jsonParse js = some v ∧ tc = ⟨nm, v⟩

/-- Computing `dropToolMarker` on an explicit marker-prefixed string. -/
theorem dropToolMarker_marker (r : Str) : dropToolMarker (toolMarker ++ r) = some r := rfl

/-- Inversion for the marker anchor. -/
theorem dropToolMarker_eq_some :
    ∀ (line r : Str), dropToolMarker line = some r → line = toolMarker ++ r := by
  intro line r h
  unfold dropToolMarker at h
  split at h
  · cases h; rfl
  · cases h

/-- Evaluating the hand-compiled regex on an explicitly decomposed line:
the match succeeds structurally and the outcome is exactly that of
`JSON.parse` on the brace-delimited span. -/
theorem parseToolCall_decomp (w1 nm w2 js w3 mid : Str)
    (hw1 : ∀ c ∈ w1, wsChar c = true)
    (hnm : nm ≠ []) (hnmw : ∀ c ∈ nm, wChar c = true)
    (hw2 : ∀ c ∈ w2, wsChar c = true)
    (hw3 : ∀ c ∈ w3, wsChar c = true)
    (hjs : js = '\x7b' :: mid ++ ['\x7d'])
    (hmid : ∀ c ∈ mid, dotChar c = true) :
    parseToolCall (toolMarker ++ (w1 ++ (nm ++ (w2 ++ (js ++ w3))))) =
      match jsonParse js with
      | some v => some ⟨nm, v⟩
      | none => none := by
  obtain ⟨n0, nm', rfl⟩ := List.exists_cons_of_ne_nil hnm
  have hstop : ∀ (c : Char) (l : Str), w2 ++ (js ++ w3) = c :: l → wChar c = false := by
    intro c l heq
    cases w2 with
    | nil =>
      rw [List.nil_append, hjs, List.cons_append] at heq
      rw [← (List.cons.injEq _ _ _ _).mp heq |>.1]
      decide
    | cons q w2' =>
      rw [List.cons_append] at heq
      rw [← (List.cons.injEq _ _ _ _).mp heq |>.1]
      exact wChar_eq_false_of_wsChar q (hw2 q (by simp))
  have hstp2 : ∀ (c : Char) (l : Str), js ++ w3 = c :: l → wsChar c = false := by
    intro c l heq
    rw [hjs, List.cons_append] at heq
    rw [← (List.cons.injEq _ _ _ _).mp heq |>.1]
    decide
  have h2 : (w1 ++ ((n0 :: nm') ++ (w2 ++ (js ++ w3)))).dropWhile wsChar
      = (n0 :: nm') ++ (w2 ++ (js ++ w3)) := by
    rw [dropWhile_append_all wsChar w1 _ hw1, List.cons_append]
    exact dropWhile_cons_neg wsChar n0 _ (wsChar_eq_false_of_wChar n0 (hnmw n0 (by simp)))
  have htake : ((n0 :: nm') ++ (w2 ++ (js ++ w3))).takeWhile wChar = n0 :: nm' :=
    takeWhile_append_stop wChar (n0 :: nm') (w2 ++ (js ++ w3)) hnmw hstop
  have hdropw : ((n0 :: nm') ++ (w2 ++ (js ++ w3))).dropWhile wChar = w2 ++ (js ++ w3) :=
    dropWhile_append_stop wChar (n0 :: nm') (w2 ++ (js ++ w3)) hnmw hstop
  have hdrop2 : (w2 ++ (js ++ w3)).dropWhile wsChar = js ++ w3 :=
    dropWhile_append_stop wsChar w2 (js ++ w3) hw2 hstp2
  have hjsrev : js.reverse = '\x7d' :: (mid.reverse ++ ['\x7b']) := by
    rw [hjs]
    simp
  have htrim : trimRightWs (js ++ w3) = js := by
    refine trimRightWs_append_ws js w3 hw3 ?_
    intro c r heq
    rw [hjsrev] at heq
    rw [← (List.cons.injEq _ _ _ _).mp heq |>.1]
    decide
  have hcond : (mid ++ ['\x7d']).getLast? = some '\x7d' ∧ (mid ++ ['\x7d']).dropLast.all dotChar := by
    constructor
    · exact List.getLast?_concat _
    · rw [List.dropLast_concat]
      exact List.all_eq_true.mpr hmid
  have htrim2 : trimRightWs (js ++ w3) = '\x7b' :: (mid ++ ['\x7d']) := by
    rw [htrim, hjs, List.cons_append]
  simp only [parseToolCall, dropToolMarker_marker, h2, htake, hdropw, hdrop2, htrim2]
  rw [if_pos hcond, hjs]
  simp only [List.cons_append]

/-- Inversion of the hand-compiled regex: a successful parse exhibits the
declarative decomposition of the line. -/
theorem parseToolCall_some_decomp (line : Str) (tc : ToolCall)
    (h : parseToolCall line = some tc) : RegexDirective line tc := by
  unfold parseToolCall at h
  split at h
  · cases h
  · next r1 hm =>
    split at h
    · cases h
    · next n0 nm' htk =>
      split at h
      · next mid hcore =>
        split at h
        · next hcond =>
          split at h
          · next v hjson =>
            simp only [Option.some.injEq] at h
            obtain ⟨hgl, hall⟩ := hcond
            have hmid : mid = mid.dropLast ++ ['\x7d'] :=
              (List.dropLast_append_getLast? '\x7d' (by rw [hgl]; rfl)).symm
            obtain ⟨w3, hw3eq, hw3⟩ := trimRightWs_decomp
              (((r1.dropWhile wsChar).dropWhile wChar).dropWhile wsChar)
            rw [hcore] at hw3eq
            have eB : (r1.dropWhile wsChar).dropWhile wChar =
                ((r1.dropWhile wsChar).dropWhile wChar).takeWhile wsChar ++
                  (('\x7b' :: mid) ++ w3) := by
              rw [← hw3eq]
              exact (List.takeWhile_append_dropWhile wsChar
                ((r1.dropWhile wsChar).dropWhile wChar)).symm
            have eC : r1.dropWhile wsChar =
                (n0 :: nm') ++ ((r1.dropWhile wsChar).dropWhile wChar) := by
              rw [← htk]
              exact (List.takeWhile_append_dropWhile wChar (r1.dropWhile wsChar)).symm
            refine ⟨r1.takeWhile wsChar, n0 :: nm',
              ((r1.dropWhile wsChar).dropWhile wChar).takeWhile wsChar,
              '\x7b' :: mid, w3, v, ?_, ?_, ?_, ?_, ?_, ?_, ?_, ?_, ?_⟩
            · calc line = toolMarker ++ r1 := dropToolMarker_eq_some line r1 hm
                _ = toolMarker ++ (r1.takeWhile wsChar ++ r1.dropWhile wsChar) := by
                    rw [List.takeWhile_append_dropWhile]
                _ = toolMarker ++ (r1.takeWhile wsChar ++
                      ((n0 :: nm') ++ ((r1.dropWhile wsChar).dropWhile wChar))) := by
                    rw [← eC]
                _ = toolMarker ++ (r1.takeWhile wsChar ++ ((n0 :: nm') ++
                      ((((r1.dropWhile wsChar).dropWhile wChar).takeWhile wsChar) ++
                        (('\x7b' :: mid) ++ w3)))) := by
                    rw [← eB]
            · intro c hc; exact List.mem_takeWhile_imp hc
            · simp
            · intro c hc; rw [← htk] at hc; exact List.mem_takeWhile_imp hc
            · intro c hc; exact List.mem_takeWhile_imp hc
            · exact hw3
            · exact ⟨mid.dropLast, congrArg (List.cons '\x7b') hmid,
                fun c hc => List.all_eq_true.mp hall c hc⟩
            · exact hjson
            · rw [← h]
          · cases h
        · cases h
      · cases h

/-- A tool executor stub that always succeeds with `null`. -/
def execOkNull : ToolExec := fun _ _ => Except.ok Json.null

/-- A directive chunk for tool `t`, one terminated line. -/
def dirChunkT : Str := "[TOOL] t ".data ++ '\x7b' :: '\x7d' :: '\n' :: []

/-- A Model Stream Source stub that emits one directive on every
iteration and never stops emitting directives on its own. -/
def streamAlwaysDir : StreamSource := fun _ _ => FetchStep.ok [dirChunkT]

/-- A Model Stream Source stub that emits plain text with no directive. -/
def streamPlainText : StreamSource := fun _ _ => FetchStep.ok ["Hello world".data]

/-- C1: the loop terminates either when a completed round executed zero
tool calls, or after exactly `maxIterations = 10` rounds; in the latter
case the output sequence ends with the maximum-iterations notice; the
always-directive stub runs exactly 10 rounds and ends with the notice;
the plain-text stub terminates after exactly 1 round with no tool calls
executed. -/
theorem claim1_loop_termination :
    (∀ (exec : ToolExec) (streamOf : StreamSource) (provider : Provider)
       (apiKey : Option Str) (msgs : List ChatMessage),
       (ollamaChat exec streamOf provider apiKey msgs).error = none →
         (ollamaChat exec streamOf provider apiKey msgs).rounds ≤ maxIterations ∧
         ((ollamaChat exec streamOf provider apiKey msgs).maxedOut = true →
            (ollamaChat exec streamOf provider apiKey msgs).rounds = maxIterations ∧
            (ollamaChat exec streamOf provider apiKey msgs).outputs.getLast?
              = some noticeText) ∧
         ((ollamaChat exec streamOf provider apiKey msgs).maxedOut = false →
            (ollamaChat exec streamOf provider apiKey msgs).lastToolCalls = 0)) ∧
    ((ollamaChat execOkNull streamAlwaysDir Provider.ollama none []).rounds = 10 ∧
     (ollamaChat execOkNull streamAlwaysDir Provider.ollama none []).maxedOut = true ∧
     (ollamaChat execOkNull streamAlwaysDir Provider.ollama none []).outputs.getLast?
       = some noticeText ∧
     (ollamaChat execOkNull streamAlwaysDir Provider.ollama none []).error = none) ∧
    ((ollamaChat execOkNull streamPlainText Provider.ollama none []).rounds = 1 ∧
     (ollamaChat execOkNull streamPlainText Provider.ollama none []).lastToolCalls = 0 ∧
     (ollamaChat execOkNull streamPlainText Provider.ollama none []).maxedOut = false ∧
     (ollamaChat execOkNull streamPlainText Provider.ollama none []).error = none) := by
  refine ⟨?_, by decide, by decide⟩
  intro exec streamOf provider apiKey msgs herr
  obtain ⟨-, h2, h3, h4⟩ :=
    chatLoop_invariants exec streamOf provider apiKey maxIterations msgs [] 0 0
  refine ⟨by simpa using h2, ?_, fun hm => h4 herr hm⟩
  intro hm
  obtain ⟨ha, hb⟩ := h3 hm
  exact ⟨by simpa using ha, hb⟩

/-- C3: per round, the text left in the scan buffer at end of stream is
yielded exactly once, as the round's final output fragment, and the
history content is the accumulated response (which already contains the
buffered text once, witnessed by the sublist) with the buffered text
appended a second time; in particular a zero-directive round, and the
whole turn built from it, records the model's reply concatenated with
itself while yielding it once. -/
theorem claim3_flush_duplication :
    (∀ (exec : ToolExec) (chunks : List Str),
       runRound exec chunks =
         ⟨(List.foldl (runCycle exec) initIterSt chunks).fullResponse ++
            (List.foldl (runCycle exec) initIterSt chunks).textBuf,
          (List.foldl (runCycle exec) initIterSt chunks).toolCallsExecuted,
          (List.foldl (runCycle exec) initIterSt chunks).outputs ++
            (if (List.foldl (runCycle exec) initIterSt chunks).textBuf.isEmpty then []
             else [(List.foldl (runCycle exec) initIterSt chunks).textBuf])⟩ ∧
       List.Sublist (List.foldl (runCycle exec) initIterSt chunks).textBuf
         (List.foldl (runCycle exec) initIterSt chunks).fullResponse) ∧
    (∀ (exec : ToolExec) (chunks : List Str),
       noDirAfter [] chunks = true →
       runRound exec chunks =
         ⟨chunks.flatten ++ chunks.flatten, 0,
          if chunks.flatten.isEmpty then [] else [chunks.flatten]⟩) ∧
    (∀ (exec : ToolExec) (streamOf : StreamSource) (apiKey : Option Str)
       (msgs : List ChatMessage) (chunks : List Str),
       streamOf 0 msgs = FetchStep.ok chunks →
       noDirAfter [] chunks = true →
       ollamaChat exec streamOf Provider.ollama apiKey msgs =
         ⟨if chunks.flatten.isEmpty then [] else [chunks.flatten],
          msgs ++ [⟨Role.assistant, chunks.flatten ++ chunks.flatten⟩],
          1, 0, false, none⟩) := by
  have hb : ∀ (exec : ToolExec) (chunks : List Str),
      noDirAfter [] chunks = true →
      runRound exec chunks =
        ⟨chunks.flatten ++ chunks.flatten, 0,
         if chunks.flatten.isEmpty then [] else [chunks.flatten]⟩ := by
    intro exec chunks h
    have hf := foldl_runCycle_noDir exec chunks [] [] 0 [] h
    rw [runRound_eq]
    have hinit : initIterSt = (⟨[], [], 0, []⟩ : IterSt) := rfl
    rw [hinit, hf]
    simp
  refine ⟨?_, hb, ?_⟩
  · intro exec chunks
    exact ⟨runRound_eq exec chunks,
      foldl_runCycle_sub exec chunks initIterSt (List.nil_sublist _)⟩
  · intro exec streamOf apiKey msgs chunks hs h
    have hk : ¬(Provider.ollama = Provider.openrouter ∧ apiKey = none) := by
      intro hc
      cases hc.1
    show chatLoop exec streamOf Provider.ollama apiKey (9 + 1) msgs [] 0 0 = _
    rw [chatLoop_succ_ok exec streamOf Provider.ollama apiKey 9 msgs [] 0 0 chunks hk hs,
      hb exec chunks h]
    simp

/-- The continuation-nudge content, spelled out for reference from the
history-evolution statement. -/
theorem nudgeMsg_content :
    nudgeMsg = ⟨Role.user,
      "Continue gathering any additional information needed to fully answer the original question.".data⟩ :=
  rfl

/-- C9: History is append-only (the initial messages are a prefix of the
final messages, for the whole turn), and per iteration: after the round's
stream is fully processed exactly one assistant entry holding the round's
accumulated content is appended, followed by exactly one nudge user
message if and only if the round executed at least one tool call. -/
theorem claim9_history_evolution :
    (∀ (exec : ToolExec) (streamOf : StreamSource) (provider : Provider)
       (apiKey : Option Str) (msgs : List ChatMessage),
       ∃ t, (ollamaChat exec streamOf provider apiKey msgs).messages = msgs ++ t) ∧
    (∀ (exec : ToolExec) (streamOf : StreamSource) (provider : Provider)
       (apiKey : Option Str) (fuel : Nat) (msgs : List ChatMessage) (outs : List Str)
       (rounds lastTc : Nat) (chunks : List Str),
       ¬(provider = Provider.openrouter ∧ apiKey = none) →
       streamOf rounds msgs = FetchStep.ok chunks →
       (chatLoop exec streamOf provider apiKey (fuel + 1) msgs outs rounds lastTc).messages =
         (if (runRound exec chunks).toolCalls = 0 then
           msgs ++ [⟨Role.assistant, (runRound exec chunks).content⟩]
          else
           (chatLoop exec streamOf provider apiKey fuel
             (msgs ++ [⟨Role.assistant, (runRound exec chunks).content⟩] ++ [nudgeMsg])
             (outs ++ (runRound exec chunks).outputs) (rounds + 1)
             (runRound exec chunks).toolCalls).messages)) := by
  constructor
  · intro exec streamOf provider apiKey msgs
    exact (chatLoop_invariants exec streamOf provider apiKey maxIterations msgs [] 0 0).1
  · intro exec streamOf provider apiKey fuel msgs outs rounds lastTc chunks hk hs
    rw [chatLoop_succ_ok exec streamOf provider apiKey fuel msgs outs rounds lastTc chunks hk hs]
    by_cases htc : (runRound exec chunks).toolCalls = 0
    · rw [if_pos htc, if_pos htc]
    · rw [if_neg htc, if_neg htc]

/-- C10: a missing OpenRouter key, or a connection failure of the model
stream (a non-ok response or missing body, which the code folds into a
single thrown error), is fatal to the turn: the error propagates, no
History entry is appended for that iteration, and no retry happens. -/
theorem claim10_connection_failure_fatal :
    (∀ (exec : ToolExec) (streamOf : StreamSource) (msgs : List ChatMessage),
       ollamaChat exec streamOf Provider.openrouter none msgs =
         ⟨[], msgs, 0, 0, false, some apiKeyErrorMsg⟩) ∧
    (∀ (exec : ToolExec) (apiKey : Option Str) (s t : Str) (msgs : List ChatMessage),
       ollamaChat exec (fun _ _ => FetchStep.fail s t) Provider.ollama apiKey msgs =
         ⟨[], msgs, 0, 0, false, some (chatFailedMsg Provider.ollama s t)⟩) ∧
    (∀ (exec : ToolExec) (streamOf : StreamSource) (provider : Provider)
       (apiKey : Option Str) (fuel : Nat) (msgs : List ChatMessage) (outs : List Str)
       (rounds lastTc : Nat) (s t : Str),
       ¬(provider = Provider.openrouter ∧ apiKey = none) →
       streamOf rounds msgs = FetchStep.fail s t →
       chatLoop exec streamOf provider apiKey (fuel + 1) msgs outs rounds lastTc =
         ⟨outs, msgs, rounds, lastTc, false, some (chatFailedMsg provider s t)⟩) := by
  refine ⟨fun exec streamOf msgs => rfl, fun exec apiKey s t msgs => rfl, ?_⟩
  intro exec streamOf provider apiKey fuel msgs outs rounds lastTc s t hk hs
  exact chatLoop_succ_fail exec streamOf provider apiKey fuel msgs outs rounds lastTc s t hk hs

/-- The parsed directive of the `x` tool-call line. -/
def tcX : ToolCall := ⟨"x".data, Json.obj []⟩

/-- One terminated directive line for tool `x`, as one read cycle. -/
def dirChunkX : Str := "[TOOL] x ".data ++ '\x7b' :: '\x7d' :: '\n' :: []

/-- A stream stub: a directive on the first invocation, silence after. -/
def streamOneDir : StreamSource := fun n _ =>
  if n = 0 then FetchStep.ok [dirChunkX] else FetchStep.ok []

/-- A tool executor stub that always throws with the given message. -/
def execFail (m : Str) : ToolExec := fun _ _ => Except.error m

/-- C2: a Tool Executor failure is absorbed: the cycle yields the exact
error block, folds it into the response accumulator exactly like a
success, counts it as an executed tool call; consequently a turn whose
only directive's execution throws still requests a second model
iteration, with the error block inside the assistant History entry. -/
theorem claim2_tool_failure_absorbed :
    (∀ (exec : ToolExec) (st : IterSt) (chunk : Str) (pre : List Str) (tc : ToolCall)
       (post : List Str) (msg : Str),
       scanForDirective (splitTextLines (st.textBuf ++ chunk)) = some (pre, tc, post) →
       exec tc.name tc.args = Except.error msg →
       runCycle exec st chunk =
         ⟨joinNL post, st.fullResponse ++ chunk ++ errorText tc msg,
          st.toolCallsExecuted + 1,
          st.outputs ++ beforeYield pre ++ [echoText tc, callingText tc, errorText tc msg]⟩) ∧
    (∀ (msg : Str),
       ollamaChat (execFail msg) streamOneDir Provider.ollama none [] =
         ⟨[echoText tcX, callingText tcX, errorText tcX msg],
          [⟨Role.assistant, dirChunkX ++ errorText tcX msg⟩, nudgeMsg, ⟨Role.assistant, []⟩],
          2, 0, false, none⟩) := by
  refine ⟨runCycle_err, ?_⟩
  intro msg
  rfl

/-- C2 witness at a concrete failing executor and directive chunk. -/
theorem claim2_witness :
    runCycle (execFail "E".data) initIterSt dirChunkX =
      ⟨joinNL [[]], initIterSt.fullResponse ++ dirChunkX ++ errorText tcX ("E".data),
       initIterSt.toolCallsExecuted + 1,
       initIterSt.outputs ++ beforeYield [] ++
         [echoText tcX, callingText tcX, errorText tcX ("E".data)]⟩ :=
  claim2_tool_failure_absorbed.1 (execFail "E".data) initIterSt dirChunkX [] tcX [[]]
    ("E".data) rfl rfl

/-- An unterminated directive: the line lacks its trailing newline. -/
def dirLineNoNL : Str := "[TOOL] t ".data ++ '\x7b' :: '\x7d' :: []

/-- The parsed directive of the `t` tool-call line. -/
def tcT : ToolCall := ⟨"t".data, Json.obj []⟩

/-- A stream stub whose first round delivers the unterminated directive
text in one read cycle and the continuation of that same line in the
next cycle, so the directive-shaped text is never a fully-terminated
line of the stream. -/
def streamSplitDir : StreamSource := fun n _ =>
  if n = 0 then FetchStep.ok [dirLineNoNL, 'x' :: '\n' :: []] else FetchStep.ok []

/-- C4 counterexample: in the round delivering `[TOOL] t \x7b\x7d` and
then `x\n`, the only line that ever becomes fully terminated is
`[TOOL] t \x7b\x7dx`, which is not a directive — indeed the scan over
the round's complete accumulated text finds none — so a loop testing
only fully-terminated lines would execute zero tool calls; the code
tests the not-yet-terminated trailing segment after the first cycle,
executes one tool call mid-line, and therefore runs a second model
round. -/
theorem claim4_counterexample :
    ¬ '\n' ∈ dirLineNoNL ∧
    parseToolCall (trimWs (dirLineNoNL ++ ['x'])) = none ∧
    scanForDirective (splitTextLines (dirLineNoNL ++ ('x' :: '\n' :: []))) = none ∧
    (runRound execOkNull [dirLineNoNL, 'x' :: '\n' :: []]).toolCalls = 1 ∧
    (ollamaChat execOkNull streamSplitDir Provider.ollama none []).rounds = 2 := by
  refine ⟨by decide, rfl, rfl, rfl, rfl⟩

/-- C4 (amended): every segment of the re-split buffer is eligible,
including the trailing not-yet-terminated one: the scan reaches a final
unterminated segment when nothing before it parses, and a complete
directive in the unterminated trailing segment triggers exactly one
executed tool call. -/
theorem claim4_trailing_segment_tested :
    (∀ (pre : List Str) (l : Str) (tc : ToolCall),
       (∀ l' ∈ pre, parseToolCall (trimWs l') = none) →
       parseToolCall (trimWs l) = some tc →
       scanForDirective (pre ++ [l]) = some (pre, tc, [])) ∧
    (∀ (exec : ToolExec) (line : Str) (tc : ToolCall),
       ¬ '\n' ∈ line →
       parseToolCall (trimWs line) = some tc →
       (runRound exec [line]).toolCalls = 1) := by
  constructor
  · intro pre
    induction pre with
    | nil =>
      intro l tc _ hl
      rw [List.nil_append]
      unfold scanForDirective
      rw [hl]
    | cons q pre ih =>
      intro l tc hpre hl
      rw [List.cons_append]
      unfold scanForDirective
      rw [hpre q (by simp), ih l tc (fun x hx => hpre x (by simp [hx])) hl]
  · intro exec line tc hnl hl
    have hscan : scanForDirective (splitTextLines (initIterSt.textBuf ++ line))
        = some ([], tc, []) := by
      show scanForDirective (splitTextLines (([] : Str) ++ line)) = some ([], tc, [])
      rw [List.nil_append, splitTextLines_no_nl line hnl]
      unfold scanForDirective
      rw [hl]
    rw [runRound_eq]
    show (List.foldl (runCycle exec) initIterSt [line]).toolCallsExecuted = 1
    rw [List.foldl_cons, List.foldl_nil]
    cases he : exec tc.name tc.args with
    | ok rv =>
      rw [runCycle_ok exec initIterSt line [] tc [] rv hscan he]
      rfl
    | error m =>
      rw [runCycle_err exec initIterSt line [] tc [] m hscan he]
      rfl

/-- C4 witness: the unterminated directive line runs exactly one tool
call. -/
theorem claim4_witness :
    (runRound execOkNull [dirLineNoNL]).toolCalls = 1 :=
  claim4_trailing_segment_tested.2 execOkNull dirLineNoNL tcT (by decide) rfl

/-- A stream stub delivering plain text over two read cycles. -/
def streamHello2 : StreamSource := fun _ _ =>
  FetchStep.ok ["hello".data, " world".data]

/-- C5 counterexample: a read cycle whose buffer holds only plain text
yields nothing at all — and over a whole turn the plain text appears in
the output sequence only once, at the end-of-stream flush, not once per
read cycle. -/
theorem claim5_counterexample :
    scanForDirective (splitTextLines ("hello".data)) = none ∧
    (runCycle execOkNull initIterSt ("hello".data)).outputs = [] ∧
    (ollamaChat execOkNull streamHello2 Provider.ollama none []).outputs
      = ["hello world".data] := by
  refine ⟨rfl, rfl, rfl⟩

/-- C5 (amended): a read cycle in which the scan finds no directive
forwards nothing: the decoded text is only accumulated, and reaches the
output sequence only as text preceding a later executed directive or in
the end-of-stream flush. -/
theorem claim5_no_yield_without_directive :
    ∀ (exec : ToolExec) (st : IterSt) (chunk : Str),
      scanForDirective (splitTextLines (st.textBuf ++ chunk)) = none →
      runCycle exec st chunk =
        ⟨st.textBuf ++ chunk, st.fullResponse ++ chunk,
         st.toolCallsExecuted, st.outputs⟩ :=
  runCycle_none

/-- C5 witness at a concrete directive-free cycle. -/
theorem claim5_witness :
    runCycle execOkNull initIterSt ("hello".data) =
      ⟨initIterSt.textBuf ++ "hello".data, initIterSt.fullResponse ++ "hello".data,
       initIterSt.toolCallsExecuted, initIterSt.outputs⟩ :=
  claim5_no_yield_without_directive execOkNull initIterSt ("hello".data) rfl

/-- C6 (amended): `parseToolCall` returns a directive exactly for lines
of the form marker, optional whitespace, nonempty identifier, optional
whitespace, brace-delimited span parsing as JSON, optional trailing
whitespace — with the parsed name and argument object. -/
theorem claim6_directive_grammar (line : Str) (tc : ToolCall) :
    parseToolCall line = some tc ↔ RegexDirective line tc := by
  constructor
  · exact parseToolCall_some_decomp line tc
  · intro h
    obtain ⟨w1, nm, w2, js, w3, v, hline, hw1, hnm, hnmw, hw2, hw3,
      ⟨mid, hjs, hmid⟩, hparse, htc⟩ := h
    rw [hline, parseToolCall_decomp w1 nm w2 js w3 mid hw1 hnm hnmw hw2 hw3 hjs hmid,
      hparse, htc]

/-- C6 witness at a concrete directive line. -/
theorem claim6_witness :
    parseToolCall ("[TOOL] t ".data ++ ['\x7b', '\x7d']) = some tcT ↔
      RegexDirective ("[TOOL] t ".data ++ ['\x7b', '\x7d']) tcT :=
  claim6_directive_grammar ("[TOOL] t ".data ++ ['\x7b', '\x7d']) tcT

/-- C6 counterexample: `[TOOL]foo` followed immediately by the JSON with
no whitespace anywhere is accepted by the code, although it has no
decomposition with the claim's mandatory whitespace. -/
theorem claim6_counterexample :
    parseToolCall ("[TOOL]foo".data ++ ['\x7b', '\x7d'])
      = some ⟨"foo".data, Json.obj []⟩ ∧
    ¬ ∃ tc, ClaimedDirective ("[TOOL]foo".data ++ ['\x7b', '\x7d']) tc := by
  constructor
  · rfl
  · rintro ⟨tc, w1, nm, w2, js, v, hline, hw1ne, hw1, -, -, -, -, -, -, -⟩
    obtain ⟨c1, w1', rfl⟩ := List.exists_cons_of_ne_nil hw1ne
    have hline' : toolMarker ++ ('f' :: 'o' :: 'o' :: '\x7b' :: '\x7d' :: []) =
        toolMarker ++ ((c1 :: w1') ++ (nm ++ (w2 ++ js))) := by
      rw [← hline]
      rfl
    have htail := List.append_cancel_left hline'
    rw [List.cons_append] at htail
    have hc1 : wsChar c1 = true := hw1 c1 (by simp)
    have hf : 'f' = c1 := by injection htail
    rw [← hf] at hc1
    exact absurd hc1 (by decide)

/-- A directive-shaped line whose argument part is not valid JSON. -/
def badDirLine : Str := "[TOOL] foo ".data ++ '\x7b' :: "bad".data ++ ['\x7d']

/-- A stream stub emitting the malformed directive line. -/
def streamBadDir : StreamSource := fun _ _ => FetchStep.ok [badDirLine ++ ['\n']]

/-- C7: a directive-looking line whose argument span is not valid JSON
parses to nothing (no error is raised — the parser is a total function
returning `none`), no tool call occurs, and the loop forwards the line
as ordinary output text. -/
theorem claim7_malformed_json_fail_open :
    (∀ (w1 nm w2 js w3 mid : Str),
       (∀ c ∈ w1, wsChar c = true) → nm ≠ [] → (∀ c ∈ nm, wChar c = true) →
       (∀ c ∈ w2, wsChar c = true) → (∀ c ∈ w3, wsChar c = true) →
       js = '\x7b' :: mid ++ ['\x7d'] → (∀ c ∈ mid, dotChar c = true) →
       jsonParse js = none →
       parseToolCall (toolMarker ++ (w1 ++ (nm ++ (w2 ++ (js ++ w3))))) = none) ∧
    parseToolCall badDirLine = none ∧
    (ollamaChat execOkNull streamBadDir Provider.ollama none [] =
      ⟨[badDirLine ++ ['\n']],
       [⟨Role.assistant, (badDirLine ++ ['\n']) ++ (badDirLine ++ ['\n'])⟩],
       1, 0, false, none⟩) := by
  refine ⟨?_, rfl, rfl⟩
  intro w1 nm w2 js w3 mid hw1 hnm hnmw hw2 hw3 hjs hmid hnone
  rw [parseToolCall_decomp w1 nm w2 js w3 mid hw1 hnm hnmw hw2 hw3 hjs hmid, hnone]

/-- C7 witness at a concrete malformed-JSON directive line. -/
theorem claim7_witness :
    parseToolCall (toolMarker ++ ([' '] ++ ("foo".data ++ ([' '] ++
      (('\x7b' :: "bad".data ++ ['\x7d']) ++ ([] : Str)))))) = none :=
  claim7_malformed_json_fail_open.1 [' '] ("foo".data) [' ']
    ('\x7b' :: "bad".data ++ ['\x7d']) [] ("bad".data)
    (by decide) (by decide) (by decide) (by decide) (by decide) rfl (by decide) rfl

/-- The parsed directive of the `a` tool-call line. -/
def tcA : ToolCall := ⟨"a".data, Json.obj []⟩

/-- Preceding text, a directive for `a`, and trailing text, in one
cycle. -/
def chunk8 : Str :=
  "pre\n[TOOL] a ".data ++ '\x7b' :: '\x7d' :: '\n' :: [] ++ "after".data

/-- Two complete directive lines arriving in a single read cycle. -/
def twoDirChunk : Str :=
  "[TOOL] a ".data ++ '\x7b' :: '\x7d' :: '\n' :: [] ++
    "[TOOL] b ".data ++ '\x7b' :: '\x7d' :: '\n' :: []

/-- C8: per scan pass at most the first recognized directive is acted
upon: the scan decomposes the buffer at the first parsing line; buffered
lines before it are yielded (when nonempty) ahead of the execution
markers; the lines after it become the new buffer; a second directive in
the same pass is not executed but is picked up by the next cycle's
re-scan. -/
theorem claim8_first_directive_only :
    (∀ (lines pre : List Str) (tc : ToolCall) (post : List Str),
       scanForDirective lines = some (pre, tc, post) →
       ∃ l, lines = pre ++ l :: post ∧ parseToolCall (trimWs l) = some tc ∧
         ∀ l' ∈ pre, parseToolCall (trimWs l') = none) ∧
    (∀ (exec : ToolExec) (st : IterSt) (chunk : Str) (pre : List Str) (tc : ToolCall)
       (post : List Str) (rv : Json),
       scanForDirective (splitTextLines (st.textBuf ++ chunk)) = some (pre, tc, post) →
       exec tc.name tc.args = Except.ok rv →
       runCycle exec st chunk =
         ⟨joinNL post, st.fullResponse ++ chunk ++ resultText tc rv,
          st.toolCallsExecuted + 1,
          st.outputs ++ beforeYield pre ++ [echoText tc, callingText tc, resultText tc rv]⟩) ∧
    ((runCycle execOkNull initIterSt chunk8).outputs =
       ["pre".data, echoText tcA, callingText tcA, resultText tcA Json.null] ∧
     (runCycle execOkNull initIterSt chunk8).textBuf = "after".data) ∧
    ((List.foldl (runCycle execOkNull) initIterSt [twoDirChunk]).toolCallsExecuted = 1 ∧
     (List.foldl (runCycle execOkNull) initIterSt [twoDirChunk, []]).toolCallsExecuted = 2) := by
  exact ⟨scanForDirective_some, runCycle_ok, ⟨rfl, rfl⟩, ⟨rfl, rfl⟩⟩

/-- C8 witness at a concrete cycle with preceding and trailing text. -/
theorem claim8_witness :
    runCycle execOkNull initIterSt chunk8 =
      ⟨joinNL ["after".data],
       initIterSt.fullResponse ++ chunk8 ++ resultText tcA Json.null,
       initIterSt.toolCallsExecuted + 1,
       initIterSt.outputs ++ beforeYield ["pre".data] ++
         [echoText tcA, callingText tcA, resultText tcA Json.null]⟩ :=
  claim8_first_directive_only.2.1 execOkNull initIterSt chunk8 ["pre".data] tcA
    ["after".data] Json.null rfl rfl

/-- C9 witness: one plain-text round appends exactly the assistant entry
with the drained content. -/
theorem claim9_witness :
    (chatLoop execOkNull streamPlainText Provider.ollama none (0 + 1) [] [] 0 0).messages =
      (if (runRound execOkNull ["Hello world".data]).toolCalls = 0 then
        [] ++ [⟨Role.assistant, (runRound execOkNull ["Hello world".data]).content⟩]
       else
        (chatLoop execOkNull streamPlainText Provider.ollama none 0
          ([] ++ [⟨Role.assistant, (runRound execOkNull ["Hello world".data]).content⟩] ++
            [nudgeMsg])
          ([] ++ (runRound execOkNull ["Hello world".data]).outputs) (0 + 1)
          (runRound execOkNull ["Hello world".data]).toolCalls).messages) :=
  claim9_history_evolution.2 execOkNull streamPlainText Provider.ollama none 0 [] [] 0 0
    ["Hello world".data] (by intro h; cases h.1) rfl

/-- C10 witness: a concrete failed fetch aborts the turn with the exact
error and untouched History. -/
theorem claim10_witness :
    chatLoop execOkNull (fun _ _ => FetchStep.fail ("500".data) ("ERR".data))
        Provider.ollama none (0 + 1) [] [] 0 0 =
      ⟨[], [], 0, 0, false,
       some (chatFailedMsg Provider.ollama ("500".data) ("ERR".data))⟩ :=
  claim10_connection_failure_fatal.2.2 execOkNull
    (fun _ _ => FetchStep.fail ("500".data) ("ERR".data)) Provider.ollama none 0 [] [] 0 0
    ("500".data) ("ERR".data) (by intro h; cases h.1) rfl

/-- C1 witness: the plain-text run satisfies the round bound. -/
theorem claim1_witness :
    (ollamaChat execOkNull streamPlainText Provider.ollama none []).rounds ≤ maxIterations :=
  (claim1_loop_termination.1 execOkNull streamPlainText Provider.ollama none [] rfl).1

/-- C3 witness: the plain-text turn's history entry is the reply doubled. -/
theorem claim3_witness :
    ollamaChat execOkNull streamPlainText Provider.ollama none [] =
      ⟨if (["Hello world".data] : List Str).flatten.isEmpty then []
        else [(["Hello world".data] : List Str).flatten],
       [⟨Role.assistant, (["Hello world".data] : List Str).flatten ++
          (["Hello world".data] : List Str).flatten⟩],
       1, 0, false, none⟩ :=
  claim3_flush_duplication.2.2 execOkNull streamPlainText none []
    ["Hello world".data] rfl rfl
